import Mathlib

/-!
Shallow embedding of the `EventScheduler` class from `src/eventhandler.ts`.

The scheduler owns an insertion-ordered map from event ids to event records
(`eventMap`, modelled as an association list), a handler registry
(`callbackMap`, modelled as the list of registered names; handler bodies are
external), a global run status, and a counter supplying fresh timer handles
(standing in for the distinct `NodeJS.Timeout` objects returned by
`setTimeout`).  `Date.now()` is modelled by threading an explicit `now`
argument into the operations that read the clock.  A pending timer is modelled
by the `TimerHandle` stored in `jobId`: its `tid` is the fresh handle and its
`delay` records the `timeToRun` value the timer was armed with; `clearTimeout`
is modelled by dropping the handle.  The asynchronous firing path of
`runEvent` is split at its suspension point into `fireStart` (the `setTimeout`
callback entering `runEvent` up to `event.status = "running"`) and
`fireFinish` (the continuation after `await callback.execute(...)`), so the
states visible while a handler is executing are states of the model.
Serialization is modelled at the level of the parsed JSON records
(`RawRecord`, whose `status` is a plain string as in JSON); an input string
that fails `JSON.parse` is the `none` case of `loadEvents`' input.
-/

/-- Opaque handler parameters (`params: any`); a flat structured value is
enough for the claims, and the shallow copy `{...event.params}` made at
execution time is value-equal to the original. -/
abbrev Params := List (String × String)

/-- The `EventStatus` union type of `eventhandler.ts`. -/
inductive EventStatus where
  | scheduled
  | running
  | done
  | paused
  | resuming
deriving DecidableEq, Repr

/-- A pending timer: `tid` models the identity of the `NodeJS.Timeout`
object, `delay` the `timeToRun` value passed to `setTimeout`. -/
structure TimerHandle where
  tid : Nat
  delay : Int
deriving DecidableEq, Repr

/-- The `Event` interface of `eventhandler.ts`. -/
structure Event where
  id : String
  lookupName : String
  params : Params
  status : EventStatus
  addedAtTime : Int
  remainingTime : Int
  duration : Int
  autoRepeat : Bool
  jobId : Option TimerHandle
deriving DecidableEq, Repr

/-- State of an `EventScheduler` instance: the two maps, the global status,
and the fresh-timer counter. -/
structure SchedState where
  eventMap : List (String × Event)
  callbackMap : List String
  status : EventStatus
  nextTimer : Nat
deriving DecidableEq, Repr

/-- Errors thrown by the scheduler, named as in the specification's error
taxonomy (the source throws plain `Error`s with corresponding messages). -/
inductive SchedError where
  | duplicateHandler (name : String)
  | unknownHandler (name : String)
  | missingHandler (name : String)
  | deserializationError
deriving DecidableEq, Repr

/-- `Map.get`: first binding of the key in the association list. -/
def lookupE : List (String × Event) → String → Option Event
  | [], _ => none
  | (k', v) :: m, k => if k' = k then some v else lookupE m k

/-- `Map.set`: replace the binding in place if the key is present (JS `Map`
keeps the original insertion position), otherwise append. -/
def setE : List (String × Event) → String → Event → List (String × Event)
  | [], k, v => [(k, v)]
  | (k', v') :: m, k, v => if k' = k then (k, v) :: m else (k', v') :: setE m k v

/-- `Map.delete`: remove the binding of the key. -/
def delE : List (String × Event) → String → List (String × Event)
  | [], _ => []
  | (k', v') :: m, k => if k' = k then delE m k else (k', v') :: delE m k

/-- The freshly constructed scheduler: both maps empty and global status
`paused` (the constructor comment: start paused so callbacks and saved events
can be registered before anything executes). -/
def initSched : SchedState :=
  { eventMap := [], callbackMap := [], status := .paused, nextTimer := 0 }

/-- `registerCallback`: throws `DuplicateHandlerError` if the name is taken,
otherwise records the handler name. -/
def registerCallback (name : String) (s : SchedState) : Except SchedError SchedState :=
  if name ∈ s.callbackMap then .error (.duplicateHandler name)
  else .ok { s with callbackMap := s.callbackMap ++ [name] }

/-- Line 171 of `scheduleEvent`: `if (event.remainingTime <= 0)
event.remainingTime = event.duration`. -/
def normRemaining (e : Event) : Event :=
  if e.remainingTime ≤ 0 then { e with remainingTime := e.duration } else e

/-- The event stored by `scheduleEvent`'s paused branch: status forced to
`paused`, no timer armed (`jobId` is left as it was on the argument). -/
def parkedEvent (e : Event) : Event :=
  { normRemaining e with status := .paused }

/-- The event stored by `scheduleEvent`'s active branch: status `scheduled`
and a timer armed with the given handle and delay. -/
def armedEvent (e : Event) (tid : Nat) (d : Int) : Event :=
  { normRemaining e with status := .scheduled, jobId := some ⟨tid, d⟩ }

/-- `removeEvent`: no-op if absent; otherwise cancel the pending timer if any
(dropping the handle) and delete the record. -/
def removeEvent (id : String) (s : SchedState) : SchedState :=
  match lookupE s.eventMap id with
  | none => s
  | some _ => { s with eventMap := delE s.eventMap id }

/-- `scheduleEvent(event, delay?)`: remove any existing record under the id
(cancelling its timer), normalize a non-positive `remainingTime` to
`duration`, then compute `timeToRun = delay ?? event.remainingTime`; if the
global status is `paused` store the event disarmed with status `paused`,
otherwise arm a fresh timer for `timeToRun` and store it as `scheduled`.
Note that an explicitly passed `delay` is the caller's value of
`event.remainingTime` evaluated before the normalization.  `scheduleInto` is
the part after the initial removal: normalization, the pause test and the
`setTimeout`/store. -/
def scheduleInto (e : Event) (delay : Option Int) (s1 : SchedState) : SchedState :=
  if s1.status = .paused then
    { s1 with eventMap := setE s1.eventMap e.id (parkedEvent e) }
  else
    { s1 with
      eventMap := setE s1.eventMap e.id
        (armedEvent e s1.nextTimer (delay.getD (normRemaining e).remainingTime)),
      nextTimer := s1.nextTimer + 1 }

/-- Body of `scheduleEvent` proper: the removal of any existing record under
the id, followed by the branch above. -/
def scheduleEvent (e : Event) (delay : Option Int) (s : SchedState) : SchedState :=
  scheduleInto e delay (if (lookupE s.eventMap e.id).isSome then removeEvent e.id s else s)

/-- The record built by `addEvent` before it calls `scheduleEvent`: status
`paused` if the global status is `paused` else `scheduled`, `addedAtTime`
the current clock, `remainingTime` the full duration, no timer yet. -/
def mkNewEvent (gs : EventStatus) (now : Int) (id name : String) (p : Params)
    (d : Int) (rep : Bool) : Event :=
  { id := id, lookupName := name, params := p,
    status := if gs = .paused then .paused else .scheduled,
    addedAtTime := now, remainingTime := d, duration := d,
    autoRepeat := rep, jobId := none }

/-- `addEvent`: throws `UnknownHandlerError` when the name has no registered
handler (the only statement before the throw is a key-existence check with no
effect); otherwise builds the new record and hands it to `scheduleEvent`. -/
def addEvent (now : Int) (id name : String) (p : Params) (d : Int) (rep : Bool)
    (s : SchedState) : Except SchedError SchedState :=
  if name ∈ s.callbackMap then
    .ok (scheduleEvent (mkNewEvent s.status now id name p d rep) none s)
  else .error (.unknownHandler name)

/-- `eventIsScheduled`: the event exists and is still alive in the table. -/
def eventIsScheduled (id : String) (s : SchedState) : Bool :=
  match lookupE s.eventMap id with
  | none => false
  | some e => e.status = .scheduled ∨ e.status = .running ∨ e.status = .paused

/-- The record stored by `pauseEvent` when it acts: elapsed time deducted
from `remainingTime`, status `paused`, timer handle cleared. -/
def pausedEvent (now : Int) (e : Event) : Event :=
  { e with
    remainingTime := e.remainingTime - (now - e.addedAtTime),
    status := .paused, jobId := none }

/-- `pauseEvent`: returns unchanged unless the event exists with status
`scheduled`; every mutation sits inside `if (event.jobId)`, so a scheduled
event without a handle is also left untouched. -/
def pauseEvent (now : Int) (id : String) (s : SchedState) : SchedState :=
  match lookupE s.eventMap id with
  | none => s
  | some e =>
    if e.status = .scheduled then
      match e.jobId with
      | none => s
      | some _ => { s with eventMap := setE s.eventMap id (pausedEvent now e) }
    else s

/-- `resumeEvent`: returns unchanged unless the event exists with status
`paused`; otherwise sets status `scheduled` and `addedAtTime = now` on the
record and calls `scheduleEvent` with the explicit delay
`event.remainingTime`, evaluated before `scheduleEvent` can normalize it. -/
def resumeEvent (now : Int) (id : String) (s : SchedState) : SchedState :=
  match lookupE s.eventMap id with
  | none => s
  | some e =>
    if e.status = .paused then
      scheduleEvent { e with status := .scheduled, addedAtTime := now }
        (some e.remainingTime) s
    else s

/-- The loop body of `pauseAll` over a snapshot of the key list (the live
iterator is equivalent here since `pauseEvent` never changes the key set). -/
def pauseList : List String → Int → SchedState → SchedState
  | [], _, s => s
  | k :: ks, now, s => pauseList ks now (pauseEvent now k s)

/-- `pauseAll`: pauses every key in table order, then waits for idle; the
wait itself performs no state change. -/
def pauseAll (now : Int) (s : SchedState) : SchedState :=
  pauseList (s.eventMap.map Prod.fst) now s

/-- The loop body of `resumeAll` over the snapshotted key list, each resume
awaited before the next. -/
def resumeList : List String → Int → SchedState → SchedState
  | [], _, s => s
  | k :: ks, now, s => resumeList ks now (resumeEvent now k s)

/-- `resumeAll`: sets the global status to `"running"` and then calls
`resumeEvent` on every key of the table, in table order (setting the status
does not change the table, so the key snapshot is that of the table). -/
def resumeAll (now : Int) (s : SchedState) : SchedState :=
  resumeList (s.eventMap.map Prod.fst) now { s with status := .running }

/-- The removal loop of `removeAllByType` over its snapshotted id list. -/
def removeList : List String → SchedState → SchedState
  | [], s => s
  | k :: ks, s => removeList ks (removeEvent k s)

/-- `removeAllByType`: snapshot the ids whose `lookupName` matches, then
remove each. -/
def removeAllByType (name : String) (s : SchedState) : SchedState :=
  removeList ((s.eventMap.filter (fun p => p.2.lookupName = name)).map Prod.fst) s

/-- The `setTimeout` callback firing for an armed event: `runEvent` begins,
finds the handler (throwing before any mutation if it is gone) and sets the
status to `running`.  The stale `jobId` of the fired timer is not cleared
here; `runEvent` clears it only after the handler completes. -/
def fireStart (id : String) (s : SchedState) : SchedState :=
  match lookupE s.eventMap id with
  | none => s
  | some e =>
    match e.jobId with
    | none => s
    | some _ =>
      if e.lookupName ∈ s.callbackMap then
        { s with eventMap := setE s.eventMap id { e with status := .running } }
      else s

/-- `executeImmediately`: no-op unless the event exists with status
`scheduled`; cancels the pending timer and clears the handle, then enters
`runEvent`, which throws before marking `running` when the handler is
missing — in that case the event is left `scheduled` with its handle already
cleared. -/
def execImmediate (id : String) (s : SchedState) : SchedState :=
  match lookupE s.eventMap id with
  | none => s
  | some e =>
    if e.status = .scheduled then
      if e.lookupName ∈ s.callbackMap then
        { s with eventMap := setE s.eventMap id { e with status := .running, jobId := none } }
      else
        { s with eventMap := setE s.eventMap id { e with jobId := none } }
    else s

/-- The object mutations `event.status = "done"; event.jobId = undefined`
performed by `runEvent` right after the handler completes, visible in the
table at the slot holding the event object. -/
def markDone (id : String) (e : Event) (s : SchedState) : SchedState :=
  { s with eventMap := setE s.eventMap id { e with status := .done, jobId := none } }

/-- The continuation of `runEvent` after `await callback.execute(...)`
returns: mark the event done and clear its handle, then either re-add an
equivalent auto-repeat event through `addEvent` (whose throw, were the
handler gone, would leave the done-marked state) or remove the event. -/
def fireFinish (now : Int) (id : String) (s : SchedState) : SchedState :=
  match lookupE s.eventMap id with
  | none => s
  | some e =>
    if e.status = .running then
      if e.autoRepeat then
        match addEvent now e.id e.lookupName e.params e.duration true (markDone id e s) with
        | .ok t => t
        | .error _ => markDone id e s
      else removeEvent e.id (markDone id e s)
    else s

/-- One record of the persisted JSON array.  `status` is a plain string, as
in the serialized format; the other fields mirror `Event` minus `jobId`. -/
structure RawRecord where
  id : String
  lookupName : String
  params : Params
  status : String
  addedAtTime : Int
  remainingTime : Int
  duration : Int
  autoRepeat : Bool
deriving DecidableEq, Repr

/-- The string form `JSON.stringify` gives each `EventStatus`. -/
def statusString : EventStatus → String
  | .scheduled => "scheduled"
  | .running => "running"
  | .done => "done"
  | .paused => "paused"
  | .resuming => "resuming"

/-- One serialized record: the event's own fields with `jobId` stripped. -/
def encodeEvent (e : Event) : RawRecord :=
  { id := e.id, lookupName := e.lookupName, params := e.params,
    status := statusString e.status, addedAtTime := e.addedAtTime,
    remainingTime := e.remainingTime, duration := e.duration,
    autoRepeat := e.autoRepeat }

/-- `saveEvents`: serialize every record of the table, in table order. -/
def saveEvents (s : SchedState) : List RawRecord :=
  s.eventMap.map (fun p => encodeEvent p.2)

/-- The event object `loadEvents` builds from a parsed record: the record's
fields with `jobId` reset to none.  Its status field is only ever read by
the `"scheduled" || "paused"` test guarding the call, and is overwritten by
`scheduleEvent`. -/
def decodeEvent (r : RawRecord) : Event :=
  { id := r.id, lookupName := r.lookupName, params := r.params,
    status := if r.status = "scheduled" then .scheduled else .paused,
    addedAtTime := r.addedAtTime, remainingTime := r.remainingTime,
    duration := r.duration, autoRepeat := r.autoRepeat, jobId := none }

/-- The `forEach` body of `loadEvents`: records whose status string is
`"scheduled"` or `"paused"` are handed to `scheduleEvent` with the persisted
`remainingTime` as the explicit delay; every other record is dropped. -/
def loadStep (r : RawRecord) (s : SchedState) : SchedState :=
  if r.status = "scheduled" ∨ r.status = "paused" then
    scheduleEvent (decodeEvent r) (some r.remainingTime) s
  else s

/-- The `forEach` loop of `loadEvents` over the parsed array. -/
def loadList : List RawRecord → SchedState → SchedState
  | [], s => s
  | r :: rs, s => loadList rs (loadStep r s)

/-- `loadEvents`: `none` models an input string rejected by `JSON.parse`,
whose exception propagates before any mutation; a parsed array is folded
record by record. -/
def loadEvents (input : Option (List RawRecord)) (s : SchedState) :
    Except SchedError SchedState :=
  match input with
  | none => .error .deserializationError
  | some recs => .ok (loadList recs s)

/-- The operations of the scheduler, each tagged with the clock values it
reads.  The firing path contributes the timer-fire step, the
immediate-execution entry and the after-handler continuation; a handler's
own activity between those two is itself a sequence of these operations. -/
inductive Op where
  | register (name : String)
  | add (now : Int) (id name : String) (p : Params) (d : Int) (rep : Bool)
  | remove (id : String)
  | pause (now : Int) (id : String)
  | resume (now : Int) (id : String)
  | pauseAllOp (now : Int)
  | resumeAllOp (now : Int)
  | removeByType (name : String)
  | load (input : Option (List RawRecord))
  | fireStartOp (id : String)
  | execImmediateOp (id : String)
  | fireFinishOp (now : Int) (id : String)

/-- The state reached by one operation; for the throwing operations the
thrown-at state is the unchanged state, since each throw precedes every
mutation of that call. -/
def applyOp (op : Op) (s : SchedState) : SchedState :=
  match op with
  | .register name => (registerCallback name s).toOption.getD s
  | .add now id name p d rep => (addEvent now id name p d rep s).toOption.getD s
  | .remove id => removeEvent id s
  | .pause now id => pauseEvent now id s
  | .resume now id => resumeEvent now id s
  | .pauseAllOp now => pauseAll now s
  | .resumeAllOp now => resumeAll now s
  | .removeByType name => removeAllByType name s
  | .load input => (loadEvents input s).toOption.getD s
  | .fireStartOp id => fireStart id s
  | .execImmediateOp id => execImmediate id s
  | .fireFinishOp now id => fireFinish now id s

/-- The timer-handle invariant exactly as the specification states it: an
event has a handle iff its status is `scheduled` and the global status is
not `paused`. -/
def timerInv0 (s : SchedState) : Prop :=
  ∀ p ∈ s.eventMap, (p.2.jobId ≠ none ↔ (p.2.status = .scheduled ∧ s.status ≠ .paused))

/-- The timer-handle invariant the code actually maintains: a handle is held
only by a `scheduled` or `running` event while the scheduler is active;
every `scheduled` event holds a handle while the scheduler is active; and no
event is `scheduled` while the scheduler is globally paused. -/
def timerInv (s : SchedState) : Prop :=
  (∀ p ∈ s.eventMap, p.2.status = .scheduled ∧ s.status ≠ .paused → p.2.jobId ≠ none)
  ∧ (∀ p ∈ s.eventMap, p.2.jobId ≠ none →
      (p.2.status = .scheduled ∨ p.2.status = .running) ∧ s.status ≠ .paused)
  ∧ (s.status = .paused → ∀ p ∈ s.eventMap, p.2.status ≠ .scheduled)

/-- Side condition for the invariant: `executeImmediately` clears the handle
before `runEvent` checks that the handler exists, so its target's handler
must still be registered (there is no way to unregister one; the
`MissingHandlerError` corner is explicitly left indeterminate by the
specification). -/
def execOK (op : Op) (s : SchedState) : Prop :=
  match op with
  | .execImmediateOp id =>
    ∀ e, lookupE s.eventMap id = some e → e.lookupName ∈ s.callbackMap
  | _ => True

/-- The event stored by a successful `resumeEvent` acting on `e` in an
active scheduler: re-armed at `now` with the timer delay taken from the
pre-normalization `remainingTime`. -/
def resumedEvent (now : Int) (e : Event) (tid : Nat) : Event :=
  armedEvent { e with status := .scheduled, addedAtTime := now } tid e.remainingTime

/-- The event stored by `loadEvents` for a restored record: parked if the
loading scheduler is globally paused, otherwise armed with the persisted
`remainingTime` as the delay. -/
def loadedEvent (gs : EventStatus) (r : RawRecord) (tid : Nat) : Event :=
  if gs = .paused then parkedEvent (decodeEvent r)
  else armedEvent (decodeEvent r) tid r.remainingTime

/-- Keys of the table agree with the `id` field of the record they hold;
every operation keys records by their own id. -/
def keysOwn (s : SchedState) : Prop :=
  ∀ p ∈ s.eventMap, p.1 = p.2.id

/-- An active scheduler with the handler name `"h"` registered and one
scheduled event `"e"` armed with a 100 ms timer. -/
def evSched : Event :=
  { id := "e", lookupName := "h", params := [], status := .scheduled,
    addedAtTime := 0, remainingTime := 100, duration := 100,
    autoRepeat := false, jobId := some ⟨0, 100⟩ }

/-- Demonstration state holding `evSched` in an active scheduler. -/
def demoS : SchedState :=
  { eventMap := [("e", evSched)], callbackMap := ["h"],
    status := .running, nextTimer := 1 }

/-- A paused event whose `remainingTime` went negative when it was paused
105 ms into its 100 ms window. -/
def evPaused : Event :=
  { id := "e", lookupName := "h", params := [], status := .paused,
    addedAtTime := 0, remainingTime := -5, duration := 100,
    autoRepeat := false, jobId := none }

/-- Demonstration state holding `evPaused` in an active scheduler. -/
def demoP : SchedState :=
  { eventMap := [("e", evPaused)], callbackMap := ["h"],
    status := .running, nextTimer := 1 }

/-- An event whose handler is mid-execution after a natural timer fire: the
status is `running` and the fired timer's stale handle is still stored. -/
def evRun : Event :=
  { id := "e", lookupName := "h", params := [], status := .running,
    addedAtTime := 0, remainingTime := 100, duration := 100,
    autoRepeat := false, jobId := some ⟨0, 100⟩ }

/-- Demonstration state holding `evRun` in an active scheduler. -/
def demoR : SchedState :=
  { eventMap := [("e", evRun)], callbackMap := ["h"],
    status := .running, nextTimer := 1 }

/-- A parsed record whose status string is not a valid `EventStatus`:
structurally malformed persisted data that `JSON.parse` accepts. -/
def bogusRec : RawRecord :=
  { id := "x", lookupName := "h", params := [], status := "bogus",
    addedAtTime := 0, remainingTime := 5, duration := 5, autoRepeat := false }

/-- A well-typed persisted record in status `"paused"` with a negative
`remainingTime`, as produced by saving a pathologically paused event. -/
def rawPaused : RawRecord :=
  { id := "y", lookupName := "h", params := [], status := "paused",
    addedAtTime := 0, remainingTime := -3, duration := 9, autoRepeat := true }

/-! ### Association-list lemmas -/

theorem lookupE_setE_self (m : List (String × Event)) (k : String) (v : Event) :
    lookupE (setE m k v) k = some v := by
  induction m with
  | nil => simp [setE, lookupE]
  | cons p m ih =>
    obtain ⟨k', v'⟩ := p
    by_cases h : k' = k
    · simp [setE, h, lookupE]
    · simp [setE, h, lookupE, ih]

theorem lookupE_setE_ne (m : List (String × Event)) (k k2 : String) (v : Event)
    (h : k2 ≠ k) : lookupE (setE m k v) k2 = lookupE m k2 := by
  induction m with
  | nil => simp [setE, lookupE, Ne.symm h]
  | cons p m ih =>
    obtain ⟨k', v'⟩ := p
    by_cases hk : k' = k
    · subst hk
      simp [setE, lookupE, Ne.symm h]
    · simp [setE, hk, lookupE, ih]

theorem lookupE_delE_self (m : List (String × Event)) (k : String) :
    lookupE (delE m k) k = none := by
  induction m with
  | nil => simp [delE, lookupE]
  | cons p m ih =>
    obtain ⟨k', v'⟩ := p
    by_cases h : k' = k
    · simp [delE, h, ih]
    · simp [delE, h, lookupE, ih]

theorem lookupE_delE_ne (m : List (String × Event)) (k k2 : String)
    (h : k2 ≠ k) : lookupE (delE m k) k2 = lookupE m k2 := by
  induction m with
  | nil => simp [delE]
  | cons p m ih =>
    obtain ⟨k', v'⟩ := p
    by_cases hk : k' = k
    · subst hk
      simp [delE, lookupE, Ne.symm h, ih]
    · simp [delE, hk, lookupE, ih]

theorem mem_setE (m : List (String × Event)) (k : String) (v : Event)
    (p : String × Event) (hp : p ∈ setE m k v) : p = (k, v) ∨ p ∈ m := by
  induction m with
  | nil => simpa [setE] using hp
  | cons q m ih =>
    obtain ⟨k', v'⟩ := q
    by_cases h : k' = k
    · simp [setE, h] at hp
      rcases hp with hp | hp
      · exact Or.inl (by simp [hp])
      · exact Or.inr (by simp [hp])
    · simp [setE, h] at hp
      rcases hp with hp | hp
      · exact Or.inr (by simp [hp])
      · rcases ih hp with hp | hp
        · exact Or.inl hp
        · exact Or.inr (by simp [hp])

theorem mem_delE (m : List (String × Event)) (k : String)
    (p : String × Event) (hp : p ∈ delE m k) : p ∈ m := by
  induction m with
  | nil => simp [delE] at hp
  | cons q m ih =>
    obtain ⟨k', v'⟩ := q
    by_cases h : k' = k
    · simp [delE, h] at hp
      exact List.mem_cons_of_mem _ (ih hp)
    · simp [delE, h] at hp
      rcases hp with hp | hp
      · simp [hp]
      · exact List.mem_cons_of_mem _ (ih hp)

/-! ### Frame lemmas: which state components each operation leaves alone -/

theorem removeEvent_status (id : String) (s : SchedState) :
    (removeEvent id s).status = s.status := by
  unfold removeEvent; split <;> rfl

theorem removeEvent_callback (id : String) (s : SchedState) :
    (removeEvent id s).callbackMap = s.callbackMap := by
  unfold removeEvent; split <;> rfl

theorem removeEvent_nextTimer (id : String) (s : SchedState) :
    (removeEvent id s).nextTimer = s.nextTimer := by
  unfold removeEvent; split <;> rfl

theorem removeEvent_lookup_self (id : String) (s : SchedState) :
    lookupE (removeEvent id s).eventMap id = none := by
  unfold removeEvent
  cases h : lookupE s.eventMap id with
  | none => exact h
  | some e => simpa using lookupE_delE_self s.eventMap id

theorem removeEvent_lookup_ne (id k : String) (s : SchedState) (h : k ≠ id) :
    lookupE (removeEvent id s).eventMap k = lookupE s.eventMap k := by
  unfold removeEvent
  cases hl : lookupE s.eventMap id with
  | none => rfl
  | some e => simpa using lookupE_delE_ne s.eventMap id k h

theorem scheduleInto_status (e : Event) (d : Option Int) (s : SchedState) :
    (scheduleInto e d s).status = s.status := by
  unfold scheduleInto; split <;> rfl

theorem scheduleInto_callback (e : Event) (d : Option Int) (s : SchedState) :
    (scheduleInto e d s).callbackMap = s.callbackMap := by
  unfold scheduleInto; split <;> rfl

theorem scheduleEvent_status (e : Event) (d : Option Int) (s : SchedState) :
    (scheduleEvent e d s).status = s.status := by
  unfold scheduleEvent
  rw [scheduleInto_status]
  split <;> simp [removeEvent_status]

theorem scheduleEvent_callback (e : Event) (d : Option Int) (s : SchedState) :
    (scheduleEvent e d s).callbackMap = s.callbackMap := by
  unfold scheduleEvent
  rw [scheduleInto_callback]
  split <;> simp [removeEvent_callback]

theorem scheduleInto_lookup_active (e : Event) (d : Option Int) (s : SchedState)
    (h : s.status ≠ .paused) :
    lookupE (scheduleInto e d s).eventMap e.id
      = some (armedEvent e s.nextTimer (d.getD (normRemaining e).remainingTime)) := by
  unfold scheduleInto
  rw [if_neg h]
  exact lookupE_setE_self _ _ _

theorem scheduleInto_lookup_paused (e : Event) (d : Option Int) (s : SchedState)
    (h : s.status = .paused) :
    lookupE (scheduleInto e d s).eventMap e.id = some (parkedEvent e) := by
  unfold scheduleInto
  rw [if_pos h]
  exact lookupE_setE_self _ _ _

theorem scheduleInto_lookup_ne (e : Event) (d : Option Int) (s : SchedState)
    (k : String) (h : k ≠ e.id) :
    lookupE (scheduleInto e d s).eventMap k = lookupE s.eventMap k := by
  unfold scheduleInto
  split <;> simp [lookupE_setE_ne _ _ _ _ h]

theorem scheduleEvent_lookup_active (e : Event) (d : Option Int) (s : SchedState)
    (h : s.status ≠ .paused) :
    lookupE (scheduleEvent e d s).eventMap e.id
      = some (armedEvent e s.nextTimer (d.getD (normRemaining e).remainingTime)) := by
  unfold scheduleEvent
  split
  · rw [scheduleInto_lookup_active]
    · rw [removeEvent_nextTimer]
    · rw [removeEvent_status]; exact h
  · exact scheduleInto_lookup_active e d s h

theorem scheduleEvent_lookup_paused (e : Event) (d : Option Int) (s : SchedState)
    (h : s.status = .paused) :
    lookupE (scheduleEvent e d s).eventMap e.id = some (parkedEvent e) := by
  unfold scheduleEvent
  split
  · rw [scheduleInto_lookup_paused]
    rw [removeEvent_status]; exact h
  · exact scheduleInto_lookup_paused e d s h

theorem scheduleEvent_lookup_ne (e : Event) (d : Option Int) (s : SchedState)
    (k : String) (h : k ≠ e.id) :
    lookupE (scheduleEvent e d s).eventMap k = lookupE s.eventMap k := by
  unfold scheduleEvent
  split
  · rw [scheduleInto_lookup_ne _ _ _ _ h, removeEvent_lookup_ne]
    exact h
  · exact scheduleInto_lookup_ne _ _ _ _ h

theorem lookupE_mem (m : List (String × Event)) (k : String) (v : Event)
    (h : lookupE m k = some v) : (k, v) ∈ m := by
  induction m with
  | nil => simp [lookupE] at h
  | cons p m ih =>
    obtain ⟨k', v'⟩ := p
    by_cases hk : k' = k
    · subst hk
      simp [lookupE] at h
      simp [h]
    · simp [lookupE, hk] at h
      exact List.mem_cons_of_mem _ (ih h)

theorem normRemaining_id (e : Event) : (normRemaining e).id = e.id := by
  unfold normRemaining; split <;> rfl

theorem parkedEvent_id (e : Event) : (parkedEvent e).id = e.id := by
  simp [parkedEvent, normRemaining_id]

theorem armedEvent_id (e : Event) (tid : Nat) (d : Int) :
    (armedEvent e tid d).id = e.id := by
  simp [armedEvent, normRemaining_id]

theorem keysOwn_setE (m : List (String × Event)) (k : String) (v : Event)
    (hm : ∀ p ∈ m, p.1 = p.2.id) (hv : v.id = k) :
    ∀ p ∈ setE m k v, p.1 = p.2.id := by
  intro p hp
  rcases mem_setE m k v p hp with hp | hp
  · simp [hp, hv]
  · exact hm p hp

theorem keysOwn_delE (m : List (String × Event)) (k : String)
    (hm : ∀ p ∈ m, p.1 = p.2.id) :
    ∀ p ∈ delE m k, p.1 = p.2.id :=
  fun p hp => hm p (mem_delE m k p hp)

theorem keysOwn_removeEvent (id : String) (s : SchedState) (h : keysOwn s) :
    keysOwn (removeEvent id s) := by
  unfold removeEvent
  split
  · exact h
  · exact keysOwn_delE s.eventMap id h

theorem keysOwn_scheduleInto (e : Event) (d : Option Int) (s : SchedState)
    (h : keysOwn s) : keysOwn (scheduleInto e d s) := by
  unfold scheduleInto
  split
  · exact keysOwn_setE s.eventMap e.id (parkedEvent e) h (parkedEvent_id e)
  · exact keysOwn_setE s.eventMap e.id (armedEvent e _ _) h (armedEvent_id e _ _)

theorem keysOwn_scheduleEvent (e : Event) (d : Option Int) (s : SchedState)
    (h : keysOwn s) : keysOwn (scheduleEvent e d s) := by
  unfold scheduleEvent
  split
  · exact keysOwn_scheduleInto _ _ _ (keysOwn_removeEvent _ _ h)
  · exact keysOwn_scheduleInto _ _ _ h

theorem keysOwn_pauseEvent (now : Int) (id : String) (s : SchedState)
    (h : keysOwn s) : keysOwn (pauseEvent now id s) := by
  unfold pauseEvent
  split
  · exact h
  next e heq =>
    split
    · split
      · exact h
      · refine keysOwn_setE s.eventMap id (pausedEvent now e) h ?_
        have := h _ (lookupE_mem _ _ _ heq)
        simpa [pausedEvent] using this.symm
    · exact h

theorem keysOwn_resumeEvent (now : Int) (id : String) (s : SchedState)
    (h : keysOwn s) : keysOwn (resumeEvent now id s) := by
  unfold resumeEvent
  split
  · exact h
  next e heq =>
    split
    · exact keysOwn_scheduleEvent _ _ _ h
    · exact h

theorem pauseEvent_status (now : Int) (id : String) (s : SchedState) :
    (pauseEvent now id s).status = s.status := by
  unfold pauseEvent
  split
  · rfl
  · split
    · split <;> rfl
    · rfl

theorem pauseEvent_callback (now : Int) (id : String) (s : SchedState) :
    (pauseEvent now id s).callbackMap = s.callbackMap := by
  unfold pauseEvent
  split
  · rfl
  · split
    · split <;> rfl
    · rfl

theorem pauseEvent_nextTimer (now : Int) (id : String) (s : SchedState) :
    (pauseEvent now id s).nextTimer = s.nextTimer := by
  unfold pauseEvent
  split
  · rfl
  · split
    · split <;> rfl
    · rfl

theorem resumeEvent_status (now : Int) (id : String) (s : SchedState) :
    (resumeEvent now id s).status = s.status := by
  unfold resumeEvent
  split
  · rfl
  · split
    · exact scheduleEvent_status _ _ _
    · rfl

theorem resumeEvent_callback (now : Int) (id : String) (s : SchedState) :
    (resumeEvent now id s).callbackMap = s.callbackMap := by
  unfold resumeEvent
  split
  · rfl
  · split
    · exact scheduleEvent_callback _ _ _
    · rfl

theorem pauseEvent_lookup_ne (now : Int) (id k : String) (s : SchedState)
    (h : k ≠ id) :
    lookupE (pauseEvent now id s).eventMap k = lookupE s.eventMap k := by
  unfold pauseEvent
  split
  · rfl
  · split
    · split
      · rfl
      · simp [lookupE_setE_ne _ _ _ _ h]
    · rfl

theorem resumeEvent_lookup_ne (now : Int) (id k : String) (s : SchedState)
    (hko : keysOwn s) (h : k ≠ id) :
    lookupE (resumeEvent now id s).eventMap k = lookupE s.eventMap k := by
  unfold resumeEvent
  split
  · rfl
  next e heq =>
    split
    · have hid : e.id = id := (hko _ (lookupE_mem _ _ _ heq)).symm
      have : k ≠ ({ e with status := EventStatus.scheduled, addedAtTime := now } : Event).id := by
        simpa [hid] using h
      exact scheduleEvent_lookup_ne _ _ _ _ this
    · rfl

theorem lookup_some_mem_keys (m : List (String × Event)) (k : String) (v : Event)
    (h : lookupE m k = some v) : k ∈ m.map Prod.fst := by
  have := lookupE_mem m k v h
  exact List.mem_map.mpr ⟨(k, v), this, rfl⟩

/-! ### Fold lemmas for `pauseAll`, `resumeAll`, `removeAllByType`, `loadEvents` -/

theorem pauseList_status (L : List String) (now : Int) (s : SchedState) :
    (pauseList L now s).status = s.status := by
  induction L generalizing s with
  | nil => rfl
  | cons k ks ih => rw [pauseList, ih, pauseEvent_status]

theorem pauseList_callback (L : List String) (now : Int) (s : SchedState) :
    (pauseList L now s).callbackMap = s.callbackMap := by
  induction L generalizing s with
  | nil => rfl
  | cons k ks ih => rw [pauseList, ih, pauseEvent_callback]

theorem pauseList_nextTimer (L : List String) (now : Int) (s : SchedState) :
    (pauseList L now s).nextTimer = s.nextTimer := by
  induction L generalizing s with
  | nil => rfl
  | cons k ks ih => rw [pauseList, ih, pauseEvent_nextTimer]

theorem pauseAll_status (now : Int) (s : SchedState) :
    (pauseAll now s).status = s.status := by
  unfold pauseAll; exact pauseList_status _ _ _

theorem pauseAll_callback (now : Int) (s : SchedState) :
    (pauseAll now s).callbackMap = s.callbackMap := by
  unfold pauseAll; exact pauseList_callback _ _ _

theorem resumeList_status (L : List String) (now : Int) (s : SchedState) :
    (resumeList L now s).status = s.status := by
  induction L generalizing s with
  | nil => rfl
  | cons k ks ih => rw [resumeList, ih, resumeEvent_status]

theorem keysOwn_resumeList (L : List String) (now : Int) (s : SchedState)
    (h : keysOwn s) : keysOwn (resumeList L now s) := by
  induction L generalizing s with
  | nil => exact h
  | cons k ks ih => exact ih _ (keysOwn_resumeEvent now k s h)

theorem resumeList_lookup_notin (L : List String) (now : Int) (s : SchedState)
    (k : String) (hko : keysOwn s) (h : k ∉ L) :
    lookupE (resumeList L now s).eventMap k = lookupE s.eventMap k := by
  induction L generalizing s with
  | nil => rfl
  | cons j ks ih =>
    rw [resumeList, ih _ (keysOwn_resumeEvent now j s hko) (fun hk => h (List.mem_cons_of_mem _ hk)),
      resumeEvent_lookup_ne now j k s hko (fun hk => h (hk ▸ List.mem_cons_self j ks))]

theorem resumeEvent_not_paused (now : Int) (id : String) (s : SchedState)
    (e : Event) (he : lookupE s.eventMap id = some e) (h : e.status ≠ .paused) :
    resumeEvent now id s = s := by
  simp only [resumeEvent, he]
  rw [if_neg h]

theorem resumeEvent_of_paused (now : Int) (id : String) (s : SchedState)
    (e : Event) (he : lookupE s.eventMap id = some e) (h : e.status = .paused) :
    resumeEvent now id s
      = scheduleEvent { e with status := .scheduled, addedAtTime := now }
          (some e.remainingTime) s := by
  simp only [resumeEvent, he]
  rw [if_pos h]

theorem resumeList_char (now : Int) (L : List String) (s : SchedState)
    (hko : keysOwn s) (hnd : L.Nodup) (hst : s.status = .running)
    (k : String) (hk : k ∈ L) (e : Event) (he : lookupE s.eventMap k = some e) :
    (e.status ≠ .paused → lookupE (resumeList L now s).eventMap k = some e)
    ∧ (e.status = .paused →
        ∃ tid, lookupE (resumeList L now s).eventMap k = some (resumedEvent now e tid)) := by
  induction L generalizing s with
  | nil => cases hk
  | cons j ks ih =>
    have hnd' : ks.Nodup := hnd.of_cons
    by_cases hj : k = j
    · subst hj
      have hkn : k ∉ ks := (List.nodup_cons.mp hnd).1
      constructor
      · intro hne
        rw [resumeList, resumeEvent_not_paused now k s e he hne,
          resumeList_lookup_notin ks now s k hko hkn]
        exact he
      · intro hp
        refine ⟨s.nextTimer, ?_⟩
        have hid : e.id = k := (hko _ (lookupE_mem _ _ _ he)).symm
        rw [resumeList, resumeEvent_of_paused now k s e he hp,
          resumeList_lookup_notin ks now _ k
            (keysOwn_scheduleEvent _ _ _ hko)
            hkn]
        have hact : s.status ≠ EventStatus.paused := by rw [hst]; intro hc; cases hc
        have := scheduleEvent_lookup_active
          { e with status := EventStatus.scheduled, addedAtTime := now }
          (some e.remainingTime) s hact
        simpa [hid, resumedEvent] using this
    · have hk' : k ∈ ks := by
        rcases List.mem_cons.mp hk with h | h
        · exact absurd h hj
        · exact h
      have hne : k ≠ j := hj
      rw [resumeList]
      have hst' : (resumeEvent now j s).status = .running := by
        rw [resumeEvent_status]; exact hst
      have he' : lookupE (resumeEvent now j s).eventMap k = some e := by
        rw [resumeEvent_lookup_ne now j k s hko hne]; exact he
      exact ih (resumeEvent now j s) (keysOwn_resumeEvent now j s hko) hnd' hst' hk' he'

theorem removeList_status (L : List String) (s : SchedState) :
    (removeList L s).status = s.status := by
  induction L generalizing s with
  | nil => rfl
  | cons k ks ih => rw [removeList, ih, removeEvent_status]

theorem loadList_status (recs : List RawRecord) (s : SchedState) :
    (loadList recs s).status = s.status := by
  induction recs generalizing s with
  | nil => rfl
  | cons r rs ih =>
    rw [loadList, ih]
    unfold loadStep
    split
    · exact scheduleEvent_status _ _ _
    · rfl

theorem loadList_all_skip (recs : List RawRecord) (s : SchedState)
    (h : ∀ r ∈ recs, ¬(r.status = "scheduled" ∨ r.status = "paused")) :
    loadList recs s = s := by
  induction recs with
  | nil => rfl
  | cons r rs ih =>
    rw [loadList]
    have hr : loadStep r s = s := by
      unfold loadStep
      rw [if_neg (h r (List.mem_cons_self r rs))]
    rw [hr]
    exact ih (fun r hr => h r (List.mem_cons_of_mem _ hr))

/-! ### Claim C6 -/

/-- C6: for every name not present in the handler registry, `addEvent` with
that name fails with `UnknownHandlerError` and the event table is unchanged:
no event is created and an existing event under the supplied id is neither
removed nor replaced (the thrown-at state is the call state). -/
theorem c6_unknown_handler (now : Int) (s : SchedState) (id name : String)
    (p : Params) (d : Int) (rep : Bool) (hname : name ∉ s.callbackMap) :
    addEvent now id name p d rep s = .error (.unknownHandler name)
    ∧ applyOp (.add now id name p d rep) s = s := by
  constructor
  · simp [addEvent, hname]
  · simp [applyOp, addEvent, hname, Except.toOption]

/-- Witness for C6 at a concrete scheduler: `"x"` is unregistered, the call
errors and the state (holding event `"e"`) is untouched. -/
theorem c6_witness :
    ("x" ∉ demoS.callbackMap)
    ∧ (addEvent 0 "e" "x" [] 5 false demoS = .error (.unknownHandler "x")
        ∧ applyOp (.add 0 "e" "x" [] 5 false) demoS = demoS) :=
  ⟨by decide, c6_unknown_handler 0 demoS "e" "x" [] 5 false (by decide)⟩

/-! ### Claim C10 -/

/-- C10: `addEvent` with a registered handler and a non-positive duration in
an active scheduler succeeds and arms a timer whose delay equals that
non-positive duration; the re-arm normalization resets `remainingTime` to
`duration`, the same non-positive value, and never produces a positive
delay here. -/
theorem c10_nonpositive_duration (now : Int) (s : SchedState) (id name : String)
    (p : Params) (rep : Bool) (d : Int) (hname : name ∈ s.callbackMap)
    (hact : s.status ≠ .paused) (hd : d ≤ 0) :
    ∃ t, addEvent now id name p d rep s = .ok t
      ∧ lookupE t.eventMap id
          = some { id := id, lookupName := name, params := p, status := .scheduled,
                   addedAtTime := now, remainingTime := d, duration := d,
                   autoRepeat := rep, jobId := some ⟨s.nextTimer, d⟩ } := by
  refine ⟨scheduleEvent (mkNewEvent s.status now id name p d rep) none s, ?_, ?_⟩
  · simp [addEvent, hname]
  · have h := scheduleEvent_lookup_active (mkNewEvent s.status now id name p d rep) none s hact
    rw [show (mkNewEvent s.status now id name p d rep).id = id from rfl] at h
    rw [h]
    simp [armedEvent, normRemaining, mkNewEvent, hd]

/-- Witness for C10: adding `"n"` with duration `-7` to an active scheduler
arms a timer with delay `-7` and stores `remainingTime = -7`. -/
theorem c10_witness :
    ("h" ∈ demoS.callbackMap) ∧ (demoS.status ≠ .paused) ∧ ((-7 : Int) ≤ 0)
    ∧ ∃ t, addEvent 3 "n" "h" [] (-7) false demoS = .ok t
        ∧ lookupE t.eventMap "n"
            = some { id := "n", lookupName := "h", params := [], status := .scheduled,
                     addedAtTime := 3, remainingTime := -7, duration := -7,
                     autoRepeat := false, jobId := some ⟨demoS.nextTimer, -7⟩ } :=
  ⟨by decide, by decide, by decide,
    c10_nonpositive_duration 3 demoS "n" "h" [] false (-7) (by decide) (by decide) (by decide)⟩

/-! ### Claim C9 -/

/-- C9: `pauseAll` never modifies the global scheduler status field, and an
event added after `pauseAll` on a previously active scheduler is created
`scheduled` with an armed timer, not `paused`. -/
theorem c9_pauseAll_keeps_global_status (now now2 : Int) (s : SchedState)
    (id name : String) (p : Params) (d : Int) (rep : Bool)
    (hname : name ∈ s.callbackMap) (hact : s.status ≠ .paused) :
    (pauseAll now s).status = s.status
    ∧ ∃ t, addEvent now2 id name p d rep (pauseAll now s) = .ok t
        ∧ ∃ e, lookupE t.eventMap id = some e
            ∧ e.status = .scheduled ∧ e.jobId ≠ none := by
  have hcb : name ∈ (pauseAll now s).callbackMap := by
    rw [pauseAll_callback]; exact hname
  have hst : (pauseAll now s).status ≠ .paused := by
    rw [pauseAll_status]; exact hact
  refine ⟨pauseAll_status now s,
    scheduleEvent (mkNewEvent (pauseAll now s).status now2 id name p d rep) none (pauseAll now s),
    ?_, ?_⟩
  · simp [addEvent, hcb]
  · refine ⟨armedEvent (mkNewEvent (pauseAll now s).status now2 id name p d rep)
      (pauseAll now s).nextTimer
      ((none : Option Int).getD
        (normRemaining (mkNewEvent (pauseAll now s).status now2 id name p d rep)).remainingTime),
      ?_, ?_, ?_⟩
    · exact scheduleEvent_lookup_active _ none (pauseAll now s) hst
    · rfl
    · simp [armedEvent]

/-- Witness for C9: pausing all of `demoS` and then adding `"n"`. -/
theorem c9_witness :
    ("h" ∈ demoS.callbackMap) ∧ (demoS.status ≠ .paused)
    ∧ ((pauseAll 10 demoS).status = demoS.status
        ∧ ∃ t, addEvent 20 "n" "h" [] 50 false (pauseAll 10 demoS) = .ok t
            ∧ ∃ e, lookupE t.eventMap "n" = some e
                ∧ e.status = .scheduled ∧ e.jobId ≠ none) :=
  ⟨by decide, by decide,
    c9_pauseAll_keeps_global_status 10 20 demoS "n" "h" [] 50 false (by decide) (by decide)⟩

/-! ### Claim C5 -/

/-- Counterexample to C5: `bogusRec` is a structurally malformed persisted
record (its status string is not an `EventStatus`), yet `loadEvents` accepts
the parsed input without raising any error — the record is silently dropped
instead of the load being rejected with a `DeserializationError`. -/
theorem c5_counterexample : loadEvents (some [bogusRec]) demoS = .ok demoS := by
  show Except.ok (loadList [bogusRec] demoS) = Except.ok demoS
  rw [loadList_all_skip [bogusRec] demoS (by decide)]

/-- C5 (amended): only an input string that fails to parse raises
`DeserializationError`, and since the failure precedes any mutation the table
is unchanged; input that parses is never rejected — the load always succeeds,
and records whose status string is not `"scheduled"` or `"paused"` are
silently dropped with no error and no effect on the table. -/
theorem c5_load_errors (s : SchedState) (recs : List RawRecord) :
    loadEvents none s = .error .deserializationError
    ∧ (∃ u, loadEvents (some recs) s = .ok u)
    ∧ ((∀ r ∈ recs, ¬(r.status = "scheduled" ∨ r.status = "paused")) →
        loadEvents (some recs) s = .ok s) := by
  refine ⟨rfl, ⟨loadList recs s, rfl⟩, ?_⟩
  intro h
  show Except.ok (loadList recs s) = Except.ok s
  rw [loadList_all_skip recs s h]

/-- Witness for C5 (amended) on the malformed one-record input. -/
theorem c5_witness :
    (∀ r ∈ [bogusRec], ¬(r.status = "scheduled" ∨ r.status = "paused"))
    ∧ (loadEvents none demoS = .error .deserializationError
        ∧ (∃ u, loadEvents (some [bogusRec]) demoS = .ok u)
        ∧ ((∀ r ∈ [bogusRec], ¬(r.status = "scheduled" ∨ r.status = "paused")) →
            loadEvents (some [bogusRec]) demoS = .ok demoS)) :=
  ⟨by decide, c5_load_errors demoS [bogusRec]⟩

/-! ### Claim C1 -/

/-- Counterexample to C1: resuming the pathologically paused event of
`demoP` (`remainingTime = -5`) arms the timer with the stale non-positive
delay `-5`, even though the stored `remainingTime` is reset to the full
duration `100`: `resumeEvent` passes `event.remainingTime` as the explicit
delay before `scheduleEvent` normalizes the field, so the delay actually
used is the stale non-positive value. -/
theorem c1_counterexample :
    lookupE (resumeEvent 200 "e" demoP).eventMap "e"
      = some { id := "e", lookupName := "h", params := [], status := .scheduled,
               addedAtTime := 200, remainingTime := 100, duration := 100,
               autoRepeat := false, jobId := some ⟨1, -5⟩ } := by
  decide

/-- C1 (amended): on every arming path the stored `remainingTime` field is
normalized (reset to `duration` when non-positive) before the event is
stored; the delay used to arm the timer equals that normalized stored value
on the `addEvent` path, but on the `resumeEvent` and `loadEvents` paths it
equals the pre-normalization `remainingTime` passed as the explicit delay,
which may be the stale non-positive value. -/
theorem c1_rearm_rule (s : SchedState) (now : Int) (idA name : String)
    (p : Params) (d : Int) (rep : Bool) (idR : String) (e : Event) (r : RawRecord)
    (hact : s.status ≠ .paused) (hname : name ∈ s.callbackMap)
    (he : lookupE s.eventMap idR = some e) (hid : e.id = idR)
    (hp : e.status = .paused)
    (hr : r.status = "scheduled" ∨ r.status = "paused") :
    (∃ u e1, addEvent now idA name p d rep s = .ok u
        ∧ lookupE u.eventMap idA = some e1
        ∧ e1.jobId = some ⟨s.nextTimer, e1.remainingTime⟩)
    ∧ (∃ tid, lookupE (resumeEvent now idR s).eventMap idR
          = some (resumedEvent now e tid))
    ∧ (∃ tid, lookupE (loadList [r] s).eventMap r.id
          = some (armedEvent (decodeEvent r) tid r.remainingTime)) := by
  refine ⟨?_, ?_, ?_⟩
  · refine ⟨scheduleEvent (mkNewEvent s.status now idA name p d rep) none s,
      armedEvent (mkNewEvent s.status now idA name p d rep) s.nextTimer
        ((none : Option Int).getD
          (normRemaining (mkNewEvent s.status now idA name p d rep)).remainingTime),
      ?_, ?_, ?_⟩
    · simp [addEvent, hname]
    · exact scheduleEvent_lookup_active _ none s hact
    · simp [armedEvent]
  · refine ⟨s.nextTimer, ?_⟩
    rw [resumeEvent_of_paused now idR s e he hp]
    have h := scheduleEvent_lookup_active
      { e with status := EventStatus.scheduled, addedAtTime := now }
      (some e.remainingTime) s hact
    simpa [hid, resumedEvent] using h
  · refine ⟨s.nextTimer, ?_⟩
    have hstep : loadList [r] s = scheduleEvent (decodeEvent r) (some r.remainingTime) s := by
      show loadStep r s = _
      unfold loadStep
      rw [if_pos hr]
    rw [hstep]
    have h := scheduleEvent_lookup_active (decodeEvent r) (some r.remainingTime) s hact
    simpa [decodeEvent] using h

/-- Witness for C1 (amended) on `demoP` with its stale paused event, a fresh
add of duration `7`, and the persisted paused record `rawPaused`. -/
theorem c1_witness :
    (demoP.status ≠ .paused) ∧ ("h" ∈ demoP.callbackMap)
    ∧ (lookupE demoP.eventMap "e" = some evPaused) ∧ (evPaused.id = "e")
    ∧ (evPaused.status = .paused)
    ∧ (rawPaused.status = "scheduled" ∨ rawPaused.status = "paused")
    ∧ ((∃ u e1, addEvent 200 "a" "h" [] 7 false demoP = .ok u
          ∧ lookupE u.eventMap "a" = some e1
          ∧ e1.jobId = some ⟨demoP.nextTimer, e1.remainingTime⟩)
        ∧ (∃ tid, lookupE (resumeEvent 200 "e" demoP).eventMap "e"
              = some (resumedEvent 200 evPaused tid))
        ∧ (∃ tid, lookupE (loadList [rawPaused] demoP).eventMap rawPaused.id
              = some (armedEvent (decodeEvent rawPaused) tid rawPaused.remainingTime))) :=
  ⟨by decide, by decide, by decide, by decide, by decide, by decide,
    c1_rearm_rule demoP 200 "a" "h" [] 7 false "e" evPaused rawPaused
      (by decide) (by decide) (by decide) (by decide) (by decide) (by decide)⟩

/-! ### Claim C4 -/

/-- Counterexample to C4: calling `resumeAll` on `demoS`, whose only event
is `scheduled`, leaves the state exactly as it was — the scheduled event is
not re-armed (its `addedAtTime` stays `0` and it keeps the old timer handle
`0` with delay `100`), refuting that `resumeAll` re-arms every event
regardless of its recorded per-event status. -/
theorem c4_counterexample :
    resumeAll 50 demoS = demoS
    ∧ evSched.status = .scheduled
    ∧ evSched.addedAtTime = 0
    ∧ evSched.jobId = some ⟨0, 100⟩ := by
  decide

/-- C4 (amended): `resumeAll` sets the global status to active and then
calls `resumeEvent` on every table key in table order, each awaited before
the next; but `resumeEvent` only re-arms events whose recorded status is
`paused` — an event in any other status is left completely untouched. -/
theorem c4_resumeAll (now : Int) (s : SchedState) (hko : keysOwn s)
    (hnd : (s.eventMap.map Prod.fst).Nodup) (k : String) (e : Event)
    (he : lookupE s.eventMap k = some e) :
    (resumeAll now s).status = .running
    ∧ (e.status ≠ .paused → lookupE (resumeAll now s).eventMap k = some e)
    ∧ (e.status = .paused →
        ∃ tid, lookupE (resumeAll now s).eventMap k = some (resumedEvent now e tid)) := by
  have hs1 : keysOwn { s with status := EventStatus.running } := hko
  refine ⟨?_, ?_⟩
  · unfold resumeAll
    rw [resumeList_status]
  · have hk : k ∈ s.eventMap.map Prod.fst := lookup_some_mem_keys _ _ _ he
    exact resumeList_char now (s.eventMap.map Prod.fst)
      { s with status := .running } hs1 hnd rfl k hk e he

/-- Witness for C4 (amended) on `demoP`: the paused event is re-armed. -/
theorem c4_witness :
    keysOwn demoP ∧ (demoP.eventMap.map Prod.fst).Nodup
    ∧ (lookupE demoP.eventMap "e" = some evPaused)
    ∧ ((resumeAll 5 demoP).status = .running
        ∧ (evPaused.status ≠ .paused → lookupE (resumeAll 5 demoP).eventMap "e" = some evPaused)
        ∧ (evPaused.status = .paused →
            ∃ tid, lookupE (resumeAll 5 demoP).eventMap "e"
              = some (resumedEvent 5 evPaused tid))) :=
  ⟨by unfold keysOwn; decide, by decide, by decide,
    c4_resumeAll 5 demoP (by unfold keysOwn; decide) (by decide) "e" evPaused (by decide)⟩

/-! ### Claim C7 -/

/-- C7: `pauseEvent` is a no-op unless the event exists with status
`scheduled`; when it applies (in any state satisfying the timer invariant,
under which a scheduled event always holds a timer handle), it cancels the
pending timer, decrements `remainingTime` by exactly `now - addedAtTime`,
sets the status to `paused` and clears the handle, changing nothing else:
the result state is the input state with only that one table entry
replaced. -/
theorem c7_pauseEvent (now : Int) (id : String) (s : SchedState) (hInv : timerInv s) :
    (∀ e, lookupE s.eventMap id = some e → e.status = .scheduled →
        pauseEvent now id s = { s with eventMap := setE s.eventMap id (pausedEvent now e) })
    ∧ ((∀ e, lookupE s.eventMap id = some e → e.status ≠ .scheduled) →
        pauseEvent now id s = s)
    ∧ (lookupE s.eventMap id = none → pauseEvent now id s = s) := by
  refine ⟨?_, ?_, ?_⟩
  · intro e he hsch
    have hmem := lookupE_mem _ _ _ he
    have hact : s.status ≠ .paused := by
      intro hps
      exact (hInv.2.2 hps _ hmem) hsch
    have hjob : e.jobId ≠ none := hInv.1 _ hmem ⟨hsch, hact⟩
    simp only [pauseEvent, he]
    rw [if_pos hsch]
    cases hj : e.jobId with
    | none => exact absurd hj hjob
    | some t => rfl
  · intro h
    cases he : lookupE s.eventMap id with
    | none => simp only [pauseEvent, he]
    | some e =>
      simp only [pauseEvent, he]
      rw [if_neg (h e he)]
  · intro he
    simp only [pauseEvent, he]

/-- Witness for C7: pausing the scheduled event of `demoS` 30 ms in. -/
theorem c7_witness :
    timerInv demoS
    ∧ (lookupE demoS.eventMap "e" = some evSched)
    ∧ (evSched.status = .scheduled)
    ∧ pauseEvent 30 "e" demoS
        = { demoS with eventMap := setE demoS.eventMap "e" (pausedEvent 30 evSched) } :=
  ⟨by unfold timerInv; decide, by decide, by decide,
    (c7_pauseEvent 30 "e" demoS (by unfold timerInv; decide)).1 evSched
      (by decide) (by decide)⟩

/-! ### Lemmas for the serialization round trip -/

theorem mem_keys_lookup_isSome (m : List (String × Event)) (k : String)
    (h : k ∈ m.map Prod.fst) : ∃ v, lookupE m k = some v := by
  induction m with
  | nil => simp at h
  | cons p m ih =>
    obtain ⟨k', v'⟩ := p
    by_cases hk : k' = k
    · exact ⟨v', by simp [lookupE, hk]⟩
    · have : k ∈ m.map Prod.fst := by
        rcases List.mem_map.mp h with ⟨q, hq, hq2⟩
        rcases List.mem_cons.mp hq with hq | hq
        · exact absurd (by rw [hq] at hq2; exact hq2) (by simpa using hk)
        · exact List.mem_map.mpr ⟨q, hq, hq2⟩
      rcases ih this with ⟨v, hv⟩
      exact ⟨v, by simp [lookupE, hk, hv]⟩

theorem lookup_of_mem_nodup (m : List (String × Event)) (k : String) (v : Event)
    (hmem : (k, v) ∈ m) (hnd : (m.map Prod.fst).Nodup) : lookupE m k = some v := by
  induction m with
  | nil => simp at hmem
  | cons p m ih =>
    obtain ⟨k', v'⟩ := p
    rcases List.mem_cons.mp hmem with h | h
    · obtain ⟨h1, h2⟩ := Prod.mk.injEq .. ▸ h
      simp [lookupE, h1.symm, h2]
    · have hk : k' ≠ k := by
        intro hk
        subst hk
        have : k' ∈ m.map Prod.fst := List.mem_map.mpr ⟨(k', v), h, rfl⟩
        exact (List.nodup_cons.mp (by simpa using hnd)).1 this
      simp only [lookupE, if_neg hk]
      exact ih h (by simpa using (List.nodup_cons.mp (by simpa using hnd)).2)

theorem statusString_scheduled_iff (st : EventStatus) :
    statusString st = "scheduled" ↔ st = .scheduled := by
  cases st <;> simp [statusString]

theorem statusString_paused_iff (st : EventStatus) :
    statusString st = "paused" ↔ st = .paused := by
  cases st <;> simp [statusString]

theorem loadStep_status (r : RawRecord) (s : SchedState) :
    (loadStep r s).status = s.status := by
  unfold loadStep
  split
  · exact scheduleEvent_status _ _ _
  · rfl

theorem loadStep_lookup_ne (r : RawRecord) (s : SchedState) (k : String)
    (h : r.id ≠ k) : lookupE (loadStep r s).eventMap k = lookupE s.eventMap k := by
  unfold loadStep
  split
  · exact scheduleEvent_lookup_ne _ _ _ _ (fun hk => h (by simpa [decodeEvent] using hk.symm))
  · rfl

theorem loadList_lookup_dropped (recs : List RawRecord) (s : SchedState) (k : String)
    (h : ∀ r ∈ recs, (r.status = "scheduled" ∨ r.status = "paused") → r.id ≠ k) :
    lookupE (loadList recs s).eventMap k = lookupE s.eventMap k := by
  induction recs generalizing s with
  | nil => rfl
  | cons q rs ih =>
    rw [loadList]
    have hstep : lookupE (loadStep q s).eventMap k = lookupE s.eventMap k := by
      unfold loadStep
      split
      next hq =>
        have hne : q.id ≠ k := h q (List.mem_cons_self q rs) hq
        exact scheduleEvent_lookup_ne _ _ _ _
          (fun hk => hne (by simpa [decodeEvent] using hk.symm))
      · rfl
    rw [ih (loadStep q s) (fun r hr => h r (List.mem_cons_of_mem _ hr)), hstep]

theorem loadStep_lookup_self (r : RawRecord) (s : SchedState)
    (hr : r.status = "scheduled" ∨ r.status = "paused") :
    ∃ tid, lookupE (loadStep r s).eventMap r.id = some (loadedEvent s.status r tid) := by
  unfold loadStep
  rw [if_pos hr]
  by_cases hs : s.status = .paused
  · refine ⟨0, ?_⟩
    have h := scheduleEvent_lookup_paused (decodeEvent r) (some r.remainingTime) s hs
    simpa [decodeEvent, loadedEvent, hs] using h
  · refine ⟨s.nextTimer, ?_⟩
    have h := scheduleEvent_lookup_active (decodeEvent r) (some r.remainingTime) s hs
    simpa [decodeEvent, loadedEvent, hs] using h

theorem loadList_lookup_of_mem (recs : List RawRecord) (s : SchedState)
    (r : RawRecord) (hmem : r ∈ recs) (hnd : (recs.map RawRecord.id).Nodup)
    (hr : r.status = "scheduled" ∨ r.status = "paused") :
    ∃ tid, lookupE (loadList recs s).eventMap r.id = some (loadedEvent s.status r tid) := by
  induction recs generalizing s with
  | nil => cases hmem
  | cons q rs ih =>
    have hnd' : (rs.map RawRecord.id).Nodup := (by simpa using hnd : (q.id :: rs.map RawRecord.id).Nodup).of_cons
    have hqnot : q.id ∉ rs.map RawRecord.id := (List.nodup_cons.mp (by simpa using hnd)).1
    rw [loadList]
    rcases List.mem_cons.mp hmem with hq | hq
    · subst hq
      rcases loadStep_lookup_self r s hr with ⟨tid, htid⟩
      refine ⟨tid, ?_⟩
      rw [loadList_lookup_dropped rs (loadStep r s) r.id
        (fun r' hr' _ => fun hc => hqnot (hc ▸ List.mem_map.mpr ⟨r', hr', rfl⟩)), htid]
    · have hid : r.id ≠ q.id := by
        intro hc
        exact hqnot (hc ▸ List.mem_map.mpr ⟨r, hq, rfl⟩)
      rcases ih (loadStep q s) hq hnd' with ⟨tid, htid⟩
      refine ⟨tid, ?_⟩
      rw [htid, loadStep_status]

theorem save_mem_key (s : SchedState) (hko : keysOwn s) (r : RawRecord)
    (hr : r ∈ saveEvents s) : ∃ e, (r.id, e) ∈ s.eventMap ∧ r = encodeEvent e := by
  rcases List.mem_map.mp hr with ⟨p, hp, hpe⟩
  refine ⟨p.2, ?_, hpe.symm⟩
  have h1 : r.id = p.1 := by
    rw [← hpe]
    exact (hko p hp).symm
  rw [h1]
  simpa using hp

/-! ### Claim C2 -/

/-- Counterexample to C2: `demoS` holds one `scheduled` event; saving it and
loading the result into a freshly constructed (globally paused) scheduler
restores the event with status `paused`, not its persisted status
`scheduled` — `scheduleEvent` recomputes the status from the loading
scheduler's global pause state instead of preserving the persisted one. -/
theorem c2_counterexample :
    evSched.status = .scheduled
    ∧ loadEvents (some (saveEvents demoS)) initSched
        = .ok (loadList (saveEvents demoS) initSched)
    ∧ lookupE (loadList (saveEvents demoS) initSched).eventMap "e"
        = some { id := "e", lookupName := "h", params := [], status := .paused,
                 addedAtTime := 0, remainingTime := 100, duration := 100,
                 autoRepeat := false, jobId := none } :=
  ⟨rfl, rfl, by decide⟩

/-- C2 (amended): `loadEvents(saveEvents())` into an empty-table scheduler
restores exactly the events whose status was `scheduled` or `paused`,
preserving `id`, `lookupName`, `params`, `duration`, `autoRepeat`,
`addedAtTime`, and preserving `remainingTime` unless it was non-positive, in
which case it is reset to `duration`; the restored status is not the
persisted one but is recomputed from the loading scheduler's global state
(`paused` when globally paused, else `scheduled` with a timer armed on the
persisted pre-normalization `remainingTime`).  Events in any other status
(`done`, `running`, `resuming`) are never restored. -/
theorem c2_roundtrip (s t : SchedState) (hko : keysOwn s)
    (hnd : (s.eventMap.map Prod.fst).Nodup) (hempty : t.eventMap = [])
    (id : String) :
    loadEvents (some (saveEvents s)) t = .ok (loadList (saveEvents s) t)
    ∧ (∀ e, lookupE s.eventMap id = some e →
        ((e.status = .scheduled ∨ e.status = .paused) →
          ∃ tid, lookupE (loadList (saveEvents s) t).eventMap id
            = some (loadedEvent t.status (encodeEvent e) tid))
        ∧ ((e.status ≠ .scheduled ∧ e.status ≠ .paused) →
          lookupE (loadList (saveEvents s) t).eventMap id = none))
    ∧ (lookupE s.eventMap id = none →
        lookupE (loadList (saveEvents s) t).eventMap id = none) := by
  have hids : (saveEvents s).map RawRecord.id = s.eventMap.map Prod.fst := by
    unfold saveEvents
    rw [List.map_map]
    exact List.map_congr_left (fun p hp => (hko p hp).symm)
  have hndr : ((saveEvents s).map RawRecord.id).Nodup := by
    rw [hids]; exact hnd
  refine ⟨rfl, ?_, ?_⟩
  · intro e he
    have hkid : e.id = id := (hko _ (lookupE_mem _ _ _ he)).symm
    constructor
    · intro hsp
      have hmem : encodeEvent e ∈ saveEvents s :=
        List.mem_map.mpr ⟨_, lookupE_mem _ _ _ he, rfl⟩
      have hsp' : (encodeEvent e).status = "scheduled" ∨ (encodeEvent e).status = "paused" := by
        rcases hsp with h | h
        · left
          show statusString e.status = "scheduled"
          rw [h]
          decide
        · right
          show statusString e.status = "paused"
          rw [h]
          decide
      rcases loadList_lookup_of_mem _ t _ hmem hndr hsp' with ⟨tid, htid⟩
      refine ⟨tid, ?_⟩
      rw [show (encodeEvent e).id = id from hkid] at htid
      exact htid
    · rintro ⟨h1, h2⟩
      have hdrop : ∀ r ∈ saveEvents s,
          (r.status = "scheduled" ∨ r.status = "paused") → r.id ≠ id := by
        intro r hr hrs hc
        rcases save_mem_key s hko r hr with ⟨e', hmem', hre⟩
        have hl : lookupE s.eventMap id = some e' :=
          lookup_of_mem_nodup _ _ _ (hc ▸ hmem') hnd
        have hee : e' = e := Option.some.inj (hl.symm.trans he)
        subst hee
        rcases hrs with hrs | hrs
        · rw [hre] at hrs
          exact h1 ((statusString_scheduled_iff e'.status).mp hrs)
        · rw [hre] at hrs
          exact h2 ((statusString_paused_iff e'.status).mp hrs)
      rw [loadList_lookup_dropped _ t id hdrop, hempty]
      rfl
  · intro he
    have hdrop : ∀ r ∈ saveEvents s,
        (r.status = "scheduled" ∨ r.status = "paused") → r.id ≠ id := by
      intro r hr _ hc
      rcases save_mem_key s hko r hr with ⟨e', hmem', _⟩
      have hl : lookupE s.eventMap id = some e' :=
        lookup_of_mem_nodup _ _ _ (hc ▸ hmem') hnd
      rw [he] at hl
      cases hl
    rw [loadList_lookup_dropped _ t id hdrop, hempty]
    rfl

/-- Witness for C2 (amended): round-tripping `demoS` into `initSched`. -/
theorem c2_witness :
    keysOwn demoS ∧ (demoS.eventMap.map Prod.fst).Nodup
    ∧ initSched.eventMap = []
    ∧ (lookupE demoS.eventMap "e" = some evSched)
    ∧ (evSched.status = .scheduled ∨ evSched.status = .paused)
    ∧ ∃ tid, lookupE (loadList (saveEvents demoS) initSched).eventMap "e"
        = some (loadedEvent initSched.status (encodeEvent evSched) tid) :=
  ⟨by unfold keysOwn; decide, by decide, rfl, by decide, by decide,
    (((c2_roundtrip demoS initSched (by unfold keysOwn; decide) (by decide) rfl "e").2.1
      evSched (by decide)).1 (by decide))⟩

/-! ### Preservation of the timer invariant -/

theorem normRemaining_jobId (e : Event) : (normRemaining e).jobId = e.jobId := by
  unfold normRemaining; split <;> rfl

theorem normRemaining_status (e : Event) : (normRemaining e).status = e.status := by
  unfold normRemaining; split <;> rfl

theorem parkedEvent_jobId (e : Event) : (parkedEvent e).jobId = e.jobId := by
  simp [parkedEvent, normRemaining_jobId]

theorem timerInv_congr (s s' : SchedState) (hm : s'.eventMap = s.eventMap)
    (hs : s'.status = s.status) (h : timerInv s) : timerInv s' := by
  unfold timerInv at *
  rw [hm, hs]
  exact h

theorem timerInv_removeEvent (id : String) (s : SchedState) (h : timerInv s) :
    timerInv (removeEvent id s) := by
  unfold removeEvent
  split
  · exact h
  · refine ⟨?_, ?_, ?_⟩
    · intro p hp h1
      exact h.1 p (mem_delE _ _ _ hp) h1
    · intro p hp h1
      exact h.2.1 p (mem_delE _ _ _ hp) h1
    · intro hps p hp
      exact h.2.2 hps p (mem_delE _ _ _ hp)

theorem timerInv_scheduleInto (e : Event) (d : Option Int) (s : SchedState)
    (hj : e.jobId = none) (h : timerInv s) : timerInv (scheduleInto e d s) := by
  unfold scheduleInto
  by_cases hs : s.status = .paused
  · rw [if_pos hs]
    refine ⟨?_, ?_, ?_⟩
    · intro p hp h1
      exact absurd hs h1.2
    · intro p hp h1
      rcases mem_setE _ _ _ p hp with rfl | hp'
      · exact absurd (by rw [parkedEvent_jobId, hj]) h1
      · exact absurd hs (h.2.1 p hp' h1).2
    · intro _ p hp
      rcases mem_setE _ _ _ p hp with rfl | hp'
      · intro hc
        cases hc
      · exact h.2.2 hs p hp'
  · rw [if_neg hs]
    refine ⟨?_, ?_, ?_⟩
    · intro p hp h1
      rcases mem_setE _ _ _ p hp with rfl | hp'
      · intro hc
        cases hc
      · exact h.1 p hp' ⟨h1.1, hs⟩
    · intro p hp h1
      rcases mem_setE _ _ _ p hp with rfl | hp'
      · exact ⟨Or.inl rfl, hs⟩
      · exact ⟨(h.2.1 p hp' h1).1, hs⟩
    · intro hps
      exact absurd hps hs

theorem timerInv_scheduleEvent (e : Event) (d : Option Int) (s : SchedState)
    (hj : e.jobId = none) (h : timerInv s) : timerInv (scheduleEvent e d s) := by
  unfold scheduleEvent
  split
  · exact timerInv_scheduleInto e d _ hj (timerInv_removeEvent e.id s h)
  · exact timerInv_scheduleInto e d s hj h

theorem timerInv_addEvent_state (now : Int) (id name : String) (p : Params)
    (d : Int) (rep : Bool) (s : SchedState) (h : timerInv s) :
    timerInv ((addEvent now id name p d rep s).toOption.getD s) := by
  by_cases hn : name ∈ s.callbackMap
  · simp only [addEvent, if_pos hn, Except.toOption, Option.getD]
    exact timerInv_scheduleEvent _ none s rfl h
  · simp only [addEvent, if_neg hn, Except.toOption, Option.getD]
    exact h

theorem timerInv_pauseEvent (now : Int) (id : String) (s : SchedState)
    (h : timerInv s) : timerInv (pauseEvent now id s) := by
  unfold pauseEvent
  split
  · exact h
  next e heq =>
    split
    · split
      · exact h
      · refine ⟨?_, ?_, ?_⟩
        · intro p hp h1
          rcases mem_setE _ _ _ p hp with rfl | hp'
          · rcases h1 with ⟨hc, _⟩
            cases hc
          · exact h.1 p hp' h1
        · intro p hp h1
          rcases mem_setE _ _ _ p hp with rfl | hp'
          · exact absurd rfl h1
          · exact h.2.1 p hp' h1
        · intro hps p hp
          rcases mem_setE _ _ _ p hp with rfl | hp'
          · intro hc
            cases hc
          · exact h.2.2 hps p hp'
    · exact h

theorem timerInv_resumeEvent (now : Int) (id : String) (s : SchedState)
    (h : timerInv s) : timerInv (resumeEvent now id s) := by
  unfold resumeEvent
  split
  · exact h
  next e heq =>
    split
    next hp =>
      have hj : e.jobId = none := by
        by_cases hj : e.jobId = none
        · exact hj
        · rcases h.2.1 _ (lookupE_mem _ _ _ heq) hj with ⟨hst | hst, _⟩ <;>
            · rw [hp] at hst
              cases hst
      exact timerInv_scheduleEvent _ _ s hj h
    · exact h

theorem timerInv_pauseList (L : List String) (now : Int) (s : SchedState)
    (h : timerInv s) : timerInv (pauseList L now s) := by
  induction L generalizing s with
  | nil => exact h
  | cons k ks ih => exact ih _ (timerInv_pauseEvent now k s h)

theorem timerInv_resumeList (L : List String) (now : Int) (s : SchedState)
    (h : timerInv s) : timerInv (resumeList L now s) := by
  induction L generalizing s with
  | nil => exact h
  | cons k ks ih => exact ih _ (timerInv_resumeEvent now k s h)

theorem timerInv_removeList (L : List String) (s : SchedState)
    (h : timerInv s) : timerInv (removeList L s) := by
  induction L generalizing s with
  | nil => exact h
  | cons k ks ih => exact ih _ (timerInv_removeEvent k s h)

theorem timerInv_activate (s : SchedState) (h : timerInv s) :
    timerInv { s with status := EventStatus.running } := by
  refine ⟨?_, ?_, ?_⟩
  · intro p hp h1
    by_cases hs : s.status = .paused
    · exact absurd h1.1 (h.2.2 hs p hp)
    · exact h.1 p hp ⟨h1.1, hs⟩
  · intro p hp h1
    refine ⟨(h.2.1 p hp h1).1, ?_⟩
    intro hc
    cases hc
  · intro hps
    cases hps

theorem timerInv_loadStep (r : RawRecord) (s : SchedState) (h : timerInv s) :
    timerInv (loadStep r s) := by
  unfold loadStep
  split
  · exact timerInv_scheduleEvent _ _ s rfl h
  · exact h

theorem timerInv_loadList (recs : List RawRecord) (s : SchedState)
    (h : timerInv s) : timerInv (loadList recs s) := by
  induction recs generalizing s with
  | nil => exact h
  | cons r rs ih => exact ih _ (timerInv_loadStep r s h)

theorem timerInv_markDone (id : String) (e : Event) (s : SchedState)
    (h : timerInv s) : timerInv (markDone id e s) := by
  unfold markDone
  refine ⟨?_, ?_, ?_⟩
  · intro p hp h1
    rcases mem_setE _ _ _ p hp with rfl | hp'
    · rcases h1 with ⟨hc, _⟩
      cases hc
    · exact h.1 p hp' h1
  · intro p hp h1
    rcases mem_setE _ _ _ p hp with rfl | hp'
    · exact absurd rfl h1
    · exact h.2.1 p hp' h1
  · intro hps p hp
    rcases mem_setE _ _ _ p hp with rfl | hp'
    · intro hc
      cases hc
    · exact h.2.2 hps p hp'

theorem timerInv_fireStart (id : String) (s : SchedState) (h : timerInv s) :
    timerInv (fireStart id s) := by
  unfold fireStart
  split
  · exact h
  next e heq =>
    split
    · exact h
    next t heqj =>
      split
      next hname =>
        have hact : s.status ≠ .paused :=
          (h.2.1 _ (lookupE_mem _ _ _ heq) (by rw [heqj]; intro hc; cases hc)).2
        refine ⟨?_, ?_, ?_⟩
        · intro p hp h1
          rcases mem_setE _ _ _ p hp with rfl | hp'
          · rcases h1 with ⟨hc, _⟩
            cases hc
          · exact h.1 p hp' h1
        · intro p hp h1
          rcases mem_setE _ _ _ p hp with rfl | hp'
          · exact ⟨Or.inr rfl, hact⟩
          · exact ⟨(h.2.1 p hp' h1).1, hact⟩
        · intro hps
          exact absurd hps hact
      · exact h

theorem timerInv_execImmediate (id : String) (s : SchedState) (h : timerInv s)
    (hok : ∀ e, lookupE s.eventMap id = some e → e.lookupName ∈ s.callbackMap) :
    timerInv (execImmediate id s) := by
  unfold execImmediate
  split
  · exact h
  next e heq =>
    split
    next hsch =>
      have hact : s.status ≠ .paused := by
        intro hps
        exact (h.2.2 hps _ (lookupE_mem _ _ _ heq)) hsch
      rw [if_pos (hok e heq)]
      refine ⟨?_, ?_, ?_⟩
      · intro p hp h1
        rcases mem_setE _ _ _ p hp with rfl | hp'
        · rcases h1 with ⟨hc, _⟩
          cases hc
        · exact h.1 p hp' h1
      · intro p hp h1
        rcases mem_setE _ _ _ p hp with rfl | hp'
        · exact absurd rfl h1
        · exact ⟨(h.2.1 p hp' h1).1, hact⟩
      · intro hps
        exact absurd hps hact
    · exact h

theorem timerInv_fireFinish (now : Int) (id : String) (s : SchedState)
    (h : timerInv s) : timerInv (fireFinish now id s) := by
  unfold fireFinish
  split
  · exact h
  next e heq =>
    split
    · split
      · split
        next t ht =>
          by_cases hn : e.lookupName ∈ (markDone id e s).callbackMap
          · rw [addEvent, if_pos hn] at ht
            have := Except.ok.inj ht
            rw [← this]
            exact timerInv_scheduleEvent _ none _ rfl (timerInv_markDone id e s h)
          · rw [addEvent, if_neg hn] at ht
            cases ht
        · exact timerInv_markDone id e s h
      · exact timerInv_removeEvent _ _ (timerInv_markDone id e s h)
    · exact h

/-! ### Claim C3 -/

/-- Counterexample to C3: `demoS` satisfies the specification's iff-shaped
timer-handle invariant, but after its armed timer fires (the event's handler
begins executing) the event is `running` while the fired timer's stale
handle is still stored — `runEvent` clears `jobId` only after the handler
completes — so the invariant is not preserved by every operation. -/
theorem c3_counterexample :
    timerInv0 demoS ∧ ¬ timerInv0 (applyOp (.fireStartOp "e") demoS) := by
  constructor
  · unfold timerInv0
    decide
  · unfold timerInv0
    decide

/-- C3 (amended): the invariant the code actually preserves across every
operation is: a timer handle is held only by a `scheduled` or `running`
event while the scheduler is globally active (a running event may retain
the stale handle of the timer that fired it until its handler completes);
every `scheduled` event holds a handle while the scheduler is active; and
no event is `scheduled` while the scheduler is globally paused.  For
`executeImmediately` the target's handler must still be registered (there
is no unregister operation; the `MissingHandlerError` corner is explicitly
left indeterminate by the specification). -/
theorem c3_timer_invariant (op : Op) (s : SchedState) (hInv : timerInv s)
    (hok : execOK op s) : timerInv (applyOp op s) := by
  cases op with
  | register name =>
    show timerInv ((registerCallback name s).toOption.getD s)
    by_cases hn : name ∈ s.callbackMap
    · simp only [registerCallback, if_pos hn, Except.toOption, Option.getD]
      exact hInv
    · simp only [registerCallback, if_neg hn, Except.toOption, Option.getD]
      exact timerInv_congr s _ rfl rfl hInv
  | add now id name p d rep => exact timerInv_addEvent_state now id name p d rep s hInv
  | remove id => exact timerInv_removeEvent id s hInv
  | pause now id => exact timerInv_pauseEvent now id s hInv
  | resume now id => exact timerInv_resumeEvent now id s hInv
  | pauseAllOp now => exact timerInv_pauseList _ now s hInv
  | resumeAllOp now => exact timerInv_resumeList _ now _ (timerInv_activate s hInv)
  | removeByType name => exact timerInv_removeList _ s hInv
  | load input =>
    cases input with
    | none => exact hInv
    | some recs =>
      exact timerInv_loadList recs s hInv
  | fireStartOp id => exact timerInv_fireStart id s hInv
  | execImmediateOp id => exact timerInv_execImmediate id s hInv hok
  | fireFinishOp now id => exact timerInv_fireFinish now id s hInv

/-- Witness for C3 (amended): pausing the armed event of `demoS`. -/
theorem c3_witness :
    timerInv demoS ∧ timerInv (applyOp (.pause 30 "e") demoS) :=
  ⟨by unfold timerInv; decide,
    c3_timer_invariant (.pause 30 "e") demoS (by unfold timerInv; decide) trivial⟩

/-! ### Claim C8 -/

theorem normRemaining_mkNewEvent (gs : EventStatus) (now : Int) (id name : String)
    (p : Params) (d : Int) (rep : Bool) :
    normRemaining (mkNewEvent gs now id name p d rep) = mkNewEvent gs now id name p d rep := by
  unfold normRemaining
  split <;> rfl

/-- C8: firing-path postcondition.  From the state in which an event's
handler has just completed (the event is `running`, its handler still
registered, the scheduler active), the continuation of `runEvent` first
marks the event `done` with its handle cleared, then: if `autoRepeat`, an
equivalent event (same id, lookupName, params, duration, autoRepeat) is
re-added with a fresh timer armed for the full duration; otherwise the
event is removed from the table. -/
theorem c8_fire_postcondition (now : Int) (s : SchedState) (id : String) (e : Event)
    (he : lookupE s.eventMap id = some e) (hrun : e.status = .running)
    (hid : e.id = id) (hreg : e.lookupName ∈ s.callbackMap)
    (hact : s.status ≠ .paused) :
    lookupE (markDone id e s).eventMap id
      = some { e with status := .done, jobId := none }
    ∧ (e.autoRepeat = true →
        ∃ tid, lookupE (fireFinish now id s).eventMap id
          = some { id := id, lookupName := e.lookupName, params := e.params,
                   status := .scheduled, addedAtTime := now,
                   remainingTime := e.duration, duration := e.duration,
                   autoRepeat := true, jobId := some ⟨tid, e.duration⟩ })
    ∧ (e.autoRepeat = false →
        lookupE (fireFinish now id s).eventMap id = none) := by
  refine ⟨?_, ?_, ?_⟩
  · unfold markDone
    exact lookupE_setE_self _ _ _
  · intro hrep
    refine ⟨s.nextTimer, ?_⟩
    simp only [fireFinish, he]
    rw [if_pos hrun, if_pos hrep]
    have hreg' : e.lookupName ∈ (markDone id e s).callbackMap := hreg
    rw [addEvent, if_pos hreg']
    have h := scheduleEvent_lookup_active
      (mkNewEvent (markDone id e s).status now e.id e.lookupName e.params e.duration true)
      none (markDone id e s) hact
    rw [show (mkNewEvent (markDone id e s).status now e.id e.lookupName e.params
        e.duration true).id = id from hid] at h
    rw [h]
    simp only [Option.getD_none, armedEvent, normRemaining_mkNewEvent]
    simp [mkNewEvent, markDone, hid]
  · intro hrep
    simp only [fireFinish, he]
    rw [if_pos hrun, if_neg (by simp [hrep] : ¬(e.autoRepeat = true))]
    rw [show e.id = id from hid]
    exact removeEvent_lookup_self id (markDone id e s)

/-- Witness for C8 on `demoR`, whose running event has `autoRepeat = false`:
after the handler completes the event is done-marked and then removed. -/
theorem c8_witness :
    (lookupE demoR.eventMap "e" = some evRun) ∧ (evRun.status = .running)
    ∧ (evRun.id = "e") ∧ ("h" ∈ demoR.callbackMap) ∧ (demoR.status ≠ .paused)
    ∧ (lookupE (markDone "e" evRun demoR).eventMap "e"
          = some { evRun with status := .done, jobId := none }
        ∧ (evRun.autoRepeat = true →
            ∃ tid, lookupE (fireFinish 7 "e" demoR).eventMap "e"
              = some { id := "e", lookupName := evRun.lookupName, params := evRun.params,
                       status := .scheduled, addedAtTime := 7,
                       remainingTime := evRun.duration, duration := evRun.duration,
                       autoRepeat := true, jobId := some ⟨tid, evRun.duration⟩ })
        ∧ (evRun.autoRepeat = false →
            lookupE (fireFinish 7 "e" demoR).eventMap "e" = none)) :=
  ⟨by decide, by decide, by decide, by decide, by decide,
    c8_fire_postcondition 7 demoR "e" evRun (by decide) (by decide) (by decide)
      (by decide) (by decide)⟩
